import Mathlib

/-!
Shallow embedding of the `rtcsocks` Negotiator (negotiator.go): the in-memory
WebRTC signaling broker.  Go `uint64` values are modelled as `Nat` (with
explicit `% 2^64` where Go wraparound matters), `time.Time`/`time.Duration`
as `Nat` ticks, and a Go byte slice `[]byte` as `Option (List Nat)` where
`none` models the nil slice.  The answers map is an association list; the
offer-bin channels are modelled as FIFO queues `Nat → List Offer`.  The
blocking rendezvous behaviour of the unbuffered channels is modelled
separately by a small-step relation (`RStep`) over the program counter of a
`registerOffer` call.
-/

namespace RTCSocks

/-- Go `[]byte`: `none` is the nil slice, `some bs` a (possibly empty) slice. -/
abbrev SDP := Option (List Nat)

/-- The `offer` struct of negotiator.go: id, user and offer SDP. -/
structure Offer where
  id   : Nat
  user : Nat
  sdp  : SDP
deriving Repr, DecidableEq

/-- The `answer` struct of negotiator.go: body (answer SDP), expiry, owner.
The per-row mutex has no functional content and is omitted. -/
structure Answer where
  body   : SDP
  expiry : Nat
  user   : Nat
deriving Repr, DecidableEq

/-- The error values declared at the top of negotiator.go. -/
inductive NegErr where
  | notAuthenticated
  | badGroupID
  | rngError
  | invalidOfferID
  | noOfferAvailable
  | answerPending
  | answerRepeated
  | noAccess
deriving Repr, DecidableEq

/-- The answers map `map[uint64]*answer`, as an association list. -/
abbrev AnswerTable := List (Nat × Answer)

/-- Go map assignment `m[k] = v`: any previous binding of `k` is replaced. -/
def mapInsert (t : AnswerTable) (k : Nat) (a : Answer) : AnswerTable :=
  (k, a) :: t.filter (fun kv => kv.1 ≠ k)

/-- State of a `Negotiator`: configuration, the offer bins (bin id to FIFO
queue of offers, standing in for the unbuffered channels), and the answers
table. -/
structure NegSt where
  maxGroupID : Nat
  ttl        : Nat
  bins       : Nat → List Offer
  answers    : AnswerTable

/-- registerAnswer (negotiator.go lines 158-172): look the row up, fail
`ErrInvalidOfferID` when absent, fail `ErrAnswerRepeated` when `body != nil`,
otherwise write `body = sdp`.  The expiry and user fields are untouched. -/
def registerAnswer (st : NegSt) (offerID : Nat) (sdp : SDP) :
    Except NegErr Unit × NegSt :=
  match st.answers.lookup offerID with
  | none => (.error .invalidOfferID, st)
  | some a =>
    if a.body ≠ none then
      (.error .answerRepeated, st)
    else
      (.ok (), { st with answers := mapInsert st.answers offerID { a with body := sdp } })

/-- lookupAnswer (negotiator.go lines 174-191): fail `ErrInvalidOfferID` when
the row is absent, `ErrNoAccess` when the caller is not the owner,
`ErrAnswerPending` when `body == nil`, otherwise return the body.  The Go
function performs no write, so the state component is returned unchanged. -/
def lookupAnswer (st : NegSt) (user offerID : Nat) :
    Except NegErr (List Nat) × NegSt :=
  match st.answers.lookup offerID with
  | none => (.error .invalidOfferID, st)
  | some a =>
    if a.user ≠ user then
      (.error .noAccess, st)
    else
      match a.body with
      | none => (.error .answerPending, st)
      | some b => (.ok b, st)

/-- Go `uint64` subtraction by one, `groupID - 1`: wraps to `2^64 - 1` at zero. -/
def u64sub1 (g : Nat) : Nat := (g + (2 ^ 64 - 1)) % 2 ^ 64

/-- Model of the Go expression `uint64(math.Pow(2, float64(e)))` for a uint64
exponent `e`.  For `e ≤ 63` the float computation and the conversion are
exact, giving `2 ^ e`.  For `e ≥ 64` the real value `2^e` (or `+Inf`, when
`e ≥ 1024` or `e` rounds up to `2^64`, as `float64(2^64 - 1)` does) does not
fit a uint64; the Go specification leaves that conversion
implementation-dependent, and the gc compiler on amd64 yields `0` for every
such input, which is the behaviour embedded here. -/
def pow2f (e : Nat) : Nat := if e ≤ 63 then 2 ^ e else 0

/-- Bin-id computation of registerOffer (negotiator.go lines 78-83): fold the
group list, OR-ing `uint64(math.Pow(2, float64(groupID-1)))` into the
accumulator for every `groupID <= maxGroupID`.  Note the guard admits
`groupID = 0`, whose contribution is `pow2f (2^64 - 1)`. -/
def binIDOfGroups (G : Nat) (groups : List Nat) : Nat :=
  groups.foldl (fun acc g => if g ≤ G then acc ||| pow2f (u64sub1 g) else acc) 0

/-- registerOffer (negotiator.go lines 76-114) as a state transformer: compute
the bin id, fail `ErrBadGroupID` when it is zero, otherwise enqueue the offer
on the bin and then store a fresh answer row `{body: nil, expiry: now + ttl,
user}` under the minted id.  The random draw is passed in as `randID` (its
error path, `ErrRNGError`, is outside this model), and `now` is the
`time.Now()` of the store.  The map assignment at line 105 is unconditional:
`mapInsert` replaces any row already keyed by `randID`. -/
def registerOffer (st : NegSt) (user : Nat) (sdp : SDP) (groups : List Nat)
    (randID : Nat) (now : Nat) : Except NegErr Nat × NegSt :=
  let binID := binIDOfGroups st.maxGroupID groups
  if binID = 0 then
    (.error .badGroupID, st)
  else
    (.ok randID,
      { st with
        bins := fun b => if b = binID then st.bins b ++ [⟨randID, user, sdp⟩] else st.bins b,
        answers := mapInsert st.answers randID ⟨none, now + st.ttl, user⟩ })

/-- The bin ids nextOffer probes (negotiator.go lines 119-125): every key of
the `offerBins` map (the keys are `1 .. 2^maxGroupID - 1`, built in
`NewNegotiator`) whose AND with `binaryGroupID = pow2f (group - 1)` is
positive.  Go map iteration order is unspecified; ascending order stands in
for it. -/
def eligibleBins (G : Nat) (group : Nat) : List Nat :=
  (List.range' 1 (2 ^ G - 1)).filter (fun b => 0 < pow2f (u64sub1 group) &&& b)

/-- The inner loop LOOP_CURRENT_BIN of nextOffer (negotiator.go lines 129-152)
on one bin's queue: dequeue; when the answer row is absent, or its expiry is
strictly before now (`answer.expiry.Before(time.Now())`), drop the offer and
continue with the same bin; otherwise return the offer, the rest of the queue
staying enqueued.  An empty queue (the `default` branch) yields `none`. -/
def scanBin (ans : AnswerTable) (now : Nat) : List Offer → Option Offer × List Offer
  | [] => (none, [])
  | o :: rest =>
    match ans.lookup o.id with
    | none => scanBin ans now rest
    | some a => if a.expiry < now then scanBin ans now rest else (some o, rest)

/-- The outer loop LOOP_ALL_BINS of nextOffer (negotiator.go lines 127-153):
probe each eligible bin in turn; a bin whose scan finds no fresh offer is
left drained (all its stale offers were dequeued and discarded). -/
def probeBins (ans : AnswerTable) (now : Nat) :
    List Nat → (Nat → List Offer) → Option Offer × (Nat → List Offer)
  | [], bins => (none, bins)
  | b :: bs, bins =>
    match scanBin ans now (bins b) with
    | (some o, rest) => (some o, fun x => if x = b then rest else bins x)
    | (none, _) => probeBins ans now bs (fun x => if x = b then [] else bins x)

/-- nextOffer (negotiator.go lines 116-156): probe the eligible bins; return
the first non-stale offer, or `ErrNoOfferAvailable` when every eligible bin
ran dry. -/
def nextOffer (st : NegSt) (group : Nat) (now : Nat) :
    Except NegErr (Nat × SDP) × NegSt :=
  match probeBins st.answers now (eligibleBins st.maxGroupID group) st.bins with
  | (some o, bins1) => (.ok (o.id, o.sdp), { st with bins := bins1 })
  | (none, bins1) => (.error .noOfferAvailable, { st with bins := bins1 })

/-- One sweep of autoPurge (negotiator.go lines 196-202): under the table
lock, delete every row with `time.Now().After(answer.expiry)`, i.e. keep a
row exactly when `¬ (expiry < now)`.  The Go loop calls `time.Now()` afresh
per row; `now` here is the instant of inspection of each row. -/
def purgeOnce (t : AnswerTable) (now : Nat) : AnswerTable :=
  t.filter (fun kv => ¬ (kv.2.expiry < now))

/-- Program counter of a registerOffer call that has passed the bin-id
computation and the random draw (negotiator.go lines 96-113): at the channel
send (lines 97-101), then at the answer store (lines 104-111), then at the
return (line 113). -/
inductive RPC where
  | atSend
  | atStore
  | atRet
deriving Repr, DecidableEq

/-- Observable events of such a run: the rendezvous handoff of the offer to a
consumer (the completion of the unbuffered channel send), and the insertion
of the answer row into the table. -/
inductive REv where
  | handoff
  | storeAnswer
deriving Repr, DecidableEq, BEq

/-- Small-step semantics of the tail of registerOffer under Go channel
semantics.  `polling` is the number of nextOffer consumers ready to receive
on the matching bin: the send on the unbuffered channel `n.offerBins[binID]`
completes only by rendezvous with such a consumer, and its completion IS the
consumer accepting the offer.  The answer store then runs unconditionally,
after which the call returns. -/
inductive RStep (polling : Nat) : RPC × List REv → RPC × List REv → Prop where
  | send (t : List REv) (h : 0 < polling) :
      RStep polling (RPC.atSend, t) (RPC.atStore, t ++ [REv.handoff])
  | store (t : List REv) :
      RStep polling (RPC.atStore, t) (RPC.atRet, t ++ [REv.storeAnswer])

/-- Multi-step executions of the registerOffer tail. -/
def RRun (polling : Nat) : RPC × List REv → RPC × List REv → Prop :=
  Relation.ReflTransGen (RStep polling)

/-- Concrete negotiator state: one live answer row, id 7, body present, owner
42, expiry 10. -/
def wSt : NegSt :=
  { maxGroupID := 3, ttl := 10, bins := fun _ => [], answers := [(7, ⟨some [170], 10, 42⟩)] }

/-- Concrete negotiator state: one answer row, id 7, body still absent (nil),
owner 42, expiry 10. -/
def stNil : NegSt :=
  { maxGroupID := 3, ttl := 10, bins := fun _ => [], answers := [(7, ⟨none, 10, 42⟩)] }

/-- Concrete negotiator state: a still-live answer row keyed 5 (body present,
owner 1, expiry 100). -/
def stLive : NegSt :=
  { maxGroupID := 3, ttl := 50, bins := fun _ => [], answers := [(5, ⟨some [170], 100, 1⟩)] }

/-- Concrete negotiator state: bin 1 holds one offer (id 9) whose answer row
is absent from the table, so the offer is stale. -/
def stStale : NegSt :=
  { maxGroupID := 3, ttl := 10,
    bins := fun x => if x = 1 then [⟨9, 1, some [7]⟩] else [], answers := [] }

/-- A Go map assignment makes the assigned binding the one lookup finds. -/
theorem lookup_mapInsert_self (t : AnswerTable) (k : Nat) (a : Answer) :
    (mapInsert t k a).lookup k = some a := by
  simp [mapInsert, List.lookup]

/-- C8: one autoPurge sweep removes exactly the rows whose expiry is strictly
earlier than the inspection time; every other row stays present and
unchanged. -/
theorem purgeOnce_removes_exactly_expired (t : AnswerTable) (now id : Nat) (a : Answer) :
    (id, a) ∈ purgeOnce t now ↔ (id, a) ∈ t ∧ ¬ (a.expiry < now) := by
  simp [purgeOnce, List.mem_filter]

/-- C4: lookupAnswer fails InvalidOfferID when the row is absent, NoAccess on
owner mismatch regardless of the body, AnswerPending when the body is absent,
and otherwise returns the body; it never mutates the state, so a repeated
lookup by the owner returns the same body. -/
theorem lookupAnswer_spec (st : NegSt) (user offerID : Nat) :
    (st.answers.lookup offerID = none →
      lookupAnswer st user offerID = (.error .invalidOfferID, st)) ∧
    (∀ a, st.answers.lookup offerID = some a → a.user ≠ user →
      lookupAnswer st user offerID = (.error .noAccess, st)) ∧
    (∀ a, st.answers.lookup offerID = some a → a.user = user → a.body = none →
      lookupAnswer st user offerID = (.error .answerPending, st)) ∧
    (∀ a b, st.answers.lookup offerID = some a → a.user = user → a.body = some b →
      lookupAnswer st user offerID = (.ok b, st)) ∧
    ((lookupAnswer st user offerID).2 = st ∧
      lookupAnswer (lookupAnswer st user offerID).2 user offerID =
        lookupAnswer st user offerID) := by
  have hsnd : (lookupAnswer st user offerID).2 = st := by
    unfold lookupAnswer
    cases h : st.answers.lookup offerID with
    | none => rfl
    | some a =>
      by_cases hu : a.user ≠ user
      · simp [hu]
      · cases hb : a.body <;> simp [hu, hb]
  refine ⟨?_, ?_, ?_, ?_, hsnd, by rw [hsnd]⟩
  · intro h; simp [lookupAnswer, h]
  · intro a h hu; simp [lookupAnswer, h, hu]
  · intro a h hu hb; simp [lookupAnswer, h, hu, hb]
  · intro a b h hu hb; simp [lookupAnswer, h, hu, hb]

/-- Witness for C4 at a concrete state: the owner reads the body back, and a
different user is refused with NoAccess even though the body is present. -/
theorem lookupAnswer_spec_witness :
    lookupAnswer wSt 42 7 = (.ok [170], wSt) ∧
    lookupAnswer wSt 43 7 = (.error .noAccess, wSt) :=
  ⟨(lookupAnswer_spec wSt 42 7).2.2.2.1 ⟨some [170], 10, 42⟩ [170] rfl rfl rfl,
   (lookupAnswer_spec wSt 43 7).2.1 ⟨some [170], 10, 42⟩ rfl (by decide)⟩

/-- C3 counterexample: on a row whose body is absent, two successive
register-answer calls with a nil SDP both return success, so it is not the
case that at most one register-answer call per offer id succeeds with all
subsequent attempts failing AnswerRepeated. -/
theorem registerAnswer_nil_twice_succeeds :
    (registerAnswer stNil 7 none).1 = .ok () ∧
    (registerAnswer (registerAnswer stNil 7 none).2 7 none).1 = .ok () :=
  ⟨rfl, rfl⟩

/-- C3 amended: register-answer fails InvalidOfferID when the row is absent,
AnswerRepeated when the body is already present, and otherwise writes the
given SDP as body leaving expiry and owner unchanged; once a NON-nil body has
been written, every later register-answer on that id fails AnswerRepeated.  A
nil-SDP call also returns success but writes no body and so does not arm the
at-most-once guard. -/
theorem registerAnswer_at_most_once_nonnil (st : NegSt) (offerID : Nat) (sdp : SDP) :
    (st.answers.lookup offerID = none →
      registerAnswer st offerID sdp = (.error .invalidOfferID, st)) ∧
    (∀ a, st.answers.lookup offerID = some a → a.body ≠ none →
      registerAnswer st offerID sdp = (.error .answerRepeated, st)) ∧
    (∀ a, st.answers.lookup offerID = some a → a.body = none →
      registerAnswer st offerID sdp =
        (.ok (), { st with answers := mapInsert st.answers offerID ⟨sdp, a.expiry, a.user⟩ })) ∧
    (∀ st1, sdp ≠ none → registerAnswer st offerID sdp = (.ok (), st1) →
      ∀ sdp1, registerAnswer st1 offerID sdp1 = (.error .answerRepeated, st1)) := by
  refine ⟨?_, ?_, ?_, ?_⟩
  · intro h; simp [registerAnswer, h]
  · intro a h hb; simp [registerAnswer, h, hb]
  · intro a h hb; simp [registerAnswer, h, hb]
  · intro st1 hs h sdp1
    cases hl : st.answers.lookup offerID with
    | none =>
      rw [show registerAnswer st offerID sdp = (.error .invalidOfferID, st) by
        simp [registerAnswer, hl]] at h
      simp at h
    | some a =>
      by_cases hb : a.body = none
      · rw [show registerAnswer st offerID sdp =
            (.ok (), { st with answers := mapInsert st.answers offerID ⟨sdp, a.expiry, a.user⟩ })
          by simp [registerAnswer, hl, hb]] at h
        have h2 : ({ st with
            answers := mapInsert st.answers offerID ⟨sdp, a.expiry, a.user⟩ } : NegSt) = st1 :=
          congrArg Prod.snd h
        rw [← h2]
        simp [registerAnswer, lookup_mapInsert_self, hs]
      · rw [show registerAnswer st offerID sdp = (.error .answerRepeated, st) by
          simp [registerAnswer, hl, hb]] at h
        simp at h


/-- Witness for the amended C3: after a successful non-nil register-answer at
a concrete state, a repeat attempt fails AnswerRepeated. -/
theorem registerAnswer_at_most_once_nonnil_witness :
    registerAnswer (registerAnswer stNil 7 (some [170])).2 7 (some [187]) =
      (.error .answerRepeated, (registerAnswer stNil 7 (some [170])).2) :=
  (registerAnswer_at_most_once_nonnil stNil 7 (some [170])).2.2.2
    (registerAnswer stNil 7 (some [170])).2 (by decide) rfl (some [187])

/-- C10: a nil-SDP register-answer on a row whose body is absent returns
success yet leaves the body absent: the owner's lookup still answers
AnswerPending, and a later register-answer on the same id still succeeds. -/
theorem registerAnswer_nil_leaves_body_absent (st : NegSt) (offerID : Nat) (a : Answer)
    (ha : st.answers.lookup offerID = some a) (hb : a.body = none) :
    (registerAnswer st offerID none).1 = .ok () ∧
    (registerAnswer st offerID none).2.answers.lookup offerID = some ⟨none, a.expiry, a.user⟩ ∧
    (lookupAnswer (registerAnswer st offerID none).2 a.user offerID).1 = .error .answerPending ∧
    ∀ sdp1, (registerAnswer (registerAnswer st offerID none).2 offerID sdp1).1 = .ok () := by
  have h2 : (registerAnswer st offerID none).2 =
      { st with answers := mapInsert st.answers offerID ⟨none, a.expiry, a.user⟩ } := by
    simp [registerAnswer, ha, hb]
  refine ⟨by simp [registerAnswer, ha, hb], ?_, ?_, ?_⟩
  · rw [h2]; exact lookup_mapInsert_self _ _ _
  · rw [h2]; simp [lookupAnswer, lookup_mapInsert_self]
  · intro sdp1; rw [h2]; simp [registerAnswer, lookup_mapInsert_self]

/-- Witness for C10 at a concrete state. -/
theorem registerAnswer_nil_leaves_body_absent_witness :
    (registerAnswer stNil 7 none).1 = .ok () ∧
    (lookupAnswer (registerAnswer stNil 7 none).2 42 7).1 = .error .answerPending ∧
    (registerAnswer (registerAnswer stNil 7 none).2 7 (some [5])).1 = .ok () := by
  have h := registerAnswer_nil_leaves_body_absent stNil 7 ⟨none, 10, 42⟩ rfl rfl
  exact ⟨h.1, h.2.2.1, h.2.2.2 (some [5])⟩

/-- C2: at the failing input — registerOffer minting id 5 while the table
still holds the live row 5 (body present, owner 1, expiry 100, ahead of
now = 0) — the unconditional map assignment at negotiator.go line 105
replaces the live row with a fresh empty one owned by the new offerer: the
collision is not detected and the live row is silently overwritten. -/
theorem registerOffer_collision_silently_overwrites :
    stLive.answers.lookup 5 = some ⟨some [170], 100, 1⟩ ∧
    (registerOffer stLive 2 (some [1]) [1] 5 0).1 = .ok 5 ∧
    (registerOffer stLive 2 (some [1]) [1] 5 0).2.answers.lookup 5 = some ⟨none, 50, 2⟩ :=
  ⟨rfl, rfl, rfl⟩

/-- Go uint64 `g - 1` is the ordinary `g - 1` when `1 ≤ g < 2^64`. -/
theorem u64sub1_of_pos (g : Nat) (h1 : 1 ≤ g) (h2 : g < 2 ^ 64) : u64sub1 g = g - 1 := by
  have h64 : (2 : Nat) ^ 64 = 18446744073709551616 := by norm_num
  unfold u64sub1
  rw [h64] at h2 ⊢
  omega

/-- For an in-range group the float-based power of two is exact. -/
theorem pow2f_u64sub1_of_pos (g : Nat) (h1 : 1 ≤ g) (h2 : g ≤ 64) :
    pow2f (u64sub1 g) = 2 ^ (g - 1) := by
  rw [u64sub1_of_pos g h1 (lt_of_le_of_lt h2 (by norm_num))]
  unfold pow2f
  rw [if_pos (by omega)]

/-- Go uint64 `0 - 1` wraps to `2^64 - 1`. -/
theorem u64sub1_zero : u64sub1 0 = 2 ^ 64 - 1 := by
  unfold u64sub1
  norm_num

/-- Group id 0 wraps to exponent `2^64 - 1`, whose overflowing conversion is 0. -/
theorem pow2f_u64sub1_zero : pow2f (u64sub1 0) = 0 := by
  rw [u64sub1_zero]
  unfold pow2f
  rw [if_neg (by norm_num)]

/-- The source's guarded fold equals the OR-fold over the groups filtered to
the range [1..G]: every out-of-range group, 0 included, contributes nothing. -/
theorem binFold_eq_filtered (G : Nat) (hG : G ≤ 64) :
    ∀ (groups : List Nat) (acc : Nat), (∀ g ∈ groups, g < 2 ^ 64) →
      groups.foldl (fun acc g => if g ≤ G then acc ||| pow2f (u64sub1 g) else acc) acc =
        (groups.filter (fun g => decide (1 ≤ g ∧ g ≤ G))).foldl
          (fun acc g => acc ||| 2 ^ (g - 1)) acc := by
  intro groups
  induction groups with
  | nil => intro acc h; rfl
  | cons g gs ih =>
    intro acc h
    have hgs : ∀ x ∈ gs, x < 2 ^ 64 := fun x hx => h x (List.mem_cons_of_mem _ hx)
    by_cases h1 : 1 ≤ g
    · by_cases h2 : g ≤ G
      · rw [List.foldl_cons, if_pos h2, pow2f_u64sub1_of_pos g h1 (le_trans h2 hG),
          show (g :: gs).filter (fun g => decide (1 ≤ g ∧ g ≤ G)) =
              g :: gs.filter (fun g => decide (1 ≤ g ∧ g ≤ G)) by
            simp [List.filter_cons, h1, h2],
          List.foldl_cons]
        exact ih _ hgs
      · rw [List.foldl_cons, if_neg h2,
          show (g :: gs).filter (fun g => decide (1 ≤ g ∧ g ≤ G)) =
              gs.filter (fun g => decide (1 ≤ g ∧ g ≤ G)) by
            simp [List.filter_cons, h2]]
        exact ih _ hgs
    · have hg0 : g = 0 := by omega
      subst hg0
      rw [List.foldl_cons, if_pos (Nat.zero_le G), pow2f_u64sub1_zero, Nat.or_zero,
        show (0 :: gs).filter (fun g => decide (1 ≤ g ∧ g ≤ G)) =
            gs.filter (fun g => decide (1 ≤ g ∧ g ≤ G)) by
          simp [List.filter_cons]]
      exact ih _ hgs

/-- C5: under the amd64 model of Go's float-to-uint64 conversion, the bin id
is the OR of 2^(g-1) over exactly the listed groups inside [1..maxGroupID] —
group id 0 (which passes the code's `groupID <= maxGroupID` guard but
contributes `uint64(+Inf) = 0`) and every group above maxGroupID contribute
nothing — and when the resulting bin id is zero registerOffer fails with
BadGroupID leaving the state untouched, so nothing is enqueued. -/
theorem registerOffer_groups_spec (st : NegSt) (user : Nat) (sdp : SDP)
    (groups : List Nat) (randID now : Nat)
    (hG : st.maxGroupID ≤ 64) (hg : ∀ g ∈ groups, g < 2 ^ 64) :
    binIDOfGroups st.maxGroupID groups =
      (groups.filter (fun g => decide (1 ≤ g ∧ g ≤ st.maxGroupID))).foldl
        (fun acc g => acc ||| 2 ^ (g - 1)) 0 ∧
    (binIDOfGroups st.maxGroupID groups = 0 →
      registerOffer st user sdp groups randID now = (.error .badGroupID, st)) := by
  constructor
  · exact binFold_eq_filtered st.maxGroupID hG groups 0 hg
  · intro h0; simp [registerOffer, h0]

/-- Witness for C5 at concrete inputs: with maxGroupID 3, the group list
[0, 2, 99] reduces to bin id 2 (groups 0 and 99 dropped), and registering
with only the out-of-range group 99 fails BadGroupID. -/
theorem registerOffer_groups_spec_witness :
    binIDOfGroups 3 [0, 2, 99] =
      ([0, 2, 99].filter (fun g => decide (1 ≤ g ∧ g ≤ 3))).foldl
        (fun acc g => acc ||| 2 ^ (g - 1)) 0 ∧
    registerOffer wSt 42 (some [1]) [99] 6 0 = (.error .badGroupID, wSt) :=
  ⟨(registerOffer_groups_spec wSt 42 (some [1]) [0, 2, 99] 6 0 (by decide) (by decide)).1,
   (registerOffer_groups_spec wSt 42 (some [1]) [99] 6 0 (by decide) (by decide)).2 rfl⟩

/-- Scan equation: a dequeued offer with no answer row is dropped and the
scan continues within the same bin. -/
theorem scanBin_cons_none (ans : AnswerTable) (now : Nat) (x : Offer) (xs : List Offer)
    (hl : ans.lookup x.id = none) :
    scanBin ans now (x :: xs) = scanBin ans now xs := by
  simp [scanBin, hl]

/-- Scan equation: a dequeued offer whose row has expired is dropped and the
scan continues within the same bin. -/
theorem scanBin_cons_stale (ans : AnswerTable) (now : Nat) (x : Offer) (xs : List Offer)
    (a : Answer) (hl : ans.lookup x.id = some a) (he : a.expiry < now) :
    scanBin ans now (x :: xs) = scanBin ans now xs := by
  simp [scanBin, hl, he]

/-- Scan equation: a dequeued offer whose row is present and unexpired is
returned; the rest of the queue stays enqueued. -/
theorem scanBin_cons_fresh (ans : AnswerTable) (now : Nat) (x : Offer) (xs : List Offer)
    (a : Answer) (hl : ans.lookup x.id = some a) (he : ¬ a.expiry < now) :
    scanBin ans now (x :: xs) = (some x, xs) := by
  simp [scanBin, hl, he]

/-- A successful scan returns an offer that was in the queue and whose answer
row is present and unexpired at the check. -/
theorem scanBin_some (ans : AnswerTable) (now : Nat) :
    ∀ (q : List Offer) (o : Offer) (rest : List Offer),
      scanBin ans now q = (some o, rest) →
      o ∈ q ∧ ∃ a, ans.lookup o.id = some a ∧ ¬ (a.expiry < now) := by
  intro q
  induction q with
  | nil => intro o rest h; simp [scanBin] at h
  | cons x xs ih =>
    intro o rest h
    cases hl : ans.lookup x.id with
    | none =>
      rw [scanBin_cons_none ans now x xs hl] at h
      obtain ⟨hm, ha⟩ := ih o rest h
      exact ⟨List.mem_cons_of_mem _ hm, ha⟩
    | some a =>
      by_cases he : a.expiry < now
      · rw [scanBin_cons_stale ans now x xs a hl he] at h
        obtain ⟨hm, ha⟩ := ih o rest h
        exact ⟨List.mem_cons_of_mem _ hm, ha⟩
      · rw [scanBin_cons_fresh ans now x xs a hl he] at h
        obtain ⟨hx, _⟩ := Prod.mk.injEq _ _ _ _ ▸ h
        cases hx
        exact ⟨List.mem_cons_self x xs, a, hl, he⟩

/-- Probe equation: a bin whose scan finds a fresh offer ends the probe. -/
theorem probeBins_cons_some (ans : AnswerTable) (now b : Nat) (bs : List Nat)
    (bins : Nat → List Offer) (o : Offer) (rest : List Offer)
    (hs : scanBin ans now (bins b) = (some o, rest)) :
    probeBins ans now (b :: bs) bins = (some o, fun x => if x = b then rest else bins x) := by
  simp [probeBins, hs]

/-- Probe equation: a bin whose scan runs dry is left drained and the probe
moves to the next eligible bin. -/
theorem probeBins_cons_none (ans : AnswerTable) (now b : Nat) (bs : List Nat)
    (bins : Nat → List Offer) (rest : List Offer)
    (hs : scanBin ans now (bins b) = (none, rest)) :
    probeBins ans now (b :: bs) bins =
      probeBins ans now bs (fun x => if x = b then [] else bins x) := by
  simp [probeBins, hs]

/-- A successful probe returns an offer that sat in one of the probed bins
and whose answer row is present and unexpired at the check. -/
theorem probeBins_some (ans : AnswerTable) (now : Nat) :
    ∀ (bl : List Nat) (bins : Nat → List Offer) (o : Offer) (bins1 : Nat → List Offer),
      probeBins ans now bl bins = (some o, bins1) →
      (∃ b ∈ bl, o ∈ bins b) ∧ ∃ a, ans.lookup o.id = some a ∧ ¬ (a.expiry < now) := by
  intro bl
  induction bl with
  | nil => intro bins o bins1 h; simp [probeBins] at h
  | cons b bs ih =>
    intro bins o bins1 h
    cases hs : scanBin ans now (bins b) with
    | mk r rest =>
      cases r with
      | some o2 =>
        rw [probeBins_cons_some ans now b bs bins o2 rest hs] at h
        have ho : o2 = o := by simpa using congrArg Prod.fst h
        subst ho
        obtain ⟨hm, ha⟩ := scanBin_some ans now (bins b) o2 rest hs
        exact ⟨⟨b, List.mem_cons_self b bs, hm⟩, ha⟩
      | none =>
        rw [probeBins_cons_none ans now b bs bins rest hs] at h
        obtain ⟨⟨b2, hb2, hm⟩, ha⟩ := ih _ o bins1 h
        by_cases hbb : b2 = b
        · rw [hbb] at hm; simp at hm
        · refine ⟨⟨b2, List.mem_cons_of_mem _ hb2, ?_⟩, ha⟩
          simpa [hbb] using hm

/-- Probing a set of empty bins yields nothing. -/
theorem probeBins_all_empty (ans : AnswerTable) (now : Nat) :
    ∀ (bl : List Nat) (bins : Nat → List Offer), (∀ b ∈ bl, bins b = []) →
      (probeBins ans now bl bins).1 = none := by
  intro bl
  induction bl with
  | nil => intro bins h; rfl
  | cons b bs ih =>
    intro bins h
    have hb : bins b = [] := h b (List.mem_cons_self b bs)
    rw [probeBins_cons_none ans now b bs bins [] (by rw [hb]; rfl)]
    exact ih _ (fun b2 hb2 => by
      by_cases hbb : b2 = b
      · simp [hbb]
      · simp [hbb, h b2 (List.mem_cons_of_mem _ hb2)])

/-- The probed bins are exactly the existing bin ids whose AND with
2^(group-1) is non-zero. -/
theorem mem_eligibleBins (G g b : Nat) (h1 : 1 ≤ g) (h2 : g ≤ 64) :
    b ∈ eligibleBins G g ↔ 1 ≤ b ∧ b ≤ 2 ^ G - 1 ∧ b &&& 2 ^ (g - 1) ≠ 0 := by
  have hp := pow2f_u64sub1_of_pos g h1 h2
  have h2G : 1 ≤ 2 ^ G := Nat.one_le_two_pow
  simp only [eligibleBins, List.mem_filter, List.mem_range'_1, hp, decide_eq_true_eq]
  rw [Nat.land_comm]
  constructor
  · rintro ⟨⟨hb1, hb2⟩, hb3⟩
    exact ⟨hb1, by omega, Nat.pos_iff_ne_zero.mp hb3⟩
  · rintro ⟨hb1, hb2, hb3⟩
    exact ⟨⟨hb1, by omega⟩, Nat.pos_iff_ne_zero.mpr hb3⟩

/-- Bit k of an OR-fold is set exactly when it is set in the seed or some
list element contributes it. -/
theorem testBit_or_foldl (k : Nat) :
    ∀ (l : List Nat) (acc : Nat),
      (l.foldl (fun acc g => acc ||| 2 ^ (g - 1)) acc).testBit k =
        (acc.testBit k || l.any (fun g => decide (g - 1 = k))) := by
  intro l
  induction l with
  | nil => intro acc; simp
  | cons x xs ih =>
    intro acc
    rw [List.foldl_cons, ih, List.any_cons, Nat.testBit_lor]
    have hx : (2 ^ (x - 1)).testBit k = decide (x - 1 = k) := by
      by_cases hxk : x - 1 = k
      · rw [hxk]; simp [Nat.testBit_two_pow_self]
      · simp [Nat.testBit_two_pow_of_ne hxk, hxk]
    rw [hx, Bool.or_assoc]

/-- Characterisation used for group routing: with all groups under 2^64 and
an in-range probe group g, bit (g-1) of the computed bin id is set exactly
when g is in the registered group list. -/
theorem binID_land_pow_ne_zero (G : Nat) (hG : G ≤ 64) (g : Nat) (h1 : 1 ≤ g) (h2 : g ≤ G)
    (gs : List Nat) (hgs : ∀ a ∈ gs, a < 2 ^ 64) :
    binIDOfGroups G gs &&& 2 ^ (g - 1) ≠ 0 ↔ g ∈ gs := by
  rw [show binIDOfGroups G gs =
      (gs.filter (fun x => decide (1 ≤ x ∧ x ≤ G))).foldl (fun acc x => acc ||| 2 ^ (x - 1)) 0
    from binFold_eq_filtered G hG gs 0 hgs]
  rw [Nat.and_two_pow]
  have hne : (2 : Nat) ^ (g - 1) ≠ 0 := Nat.pos_iff_ne_zero.mp (Nat.pos_pow_of_pos _ (by norm_num))
  constructor
  · intro hnz
    have htb : ((gs.filter (fun x => decide (1 ≤ x ∧ x ≤ G))).foldl
        (fun acc x => acc ||| 2 ^ (x - 1)) 0).testBit (g - 1) = true := by
      cases htb : ((gs.filter (fun x => decide (1 ≤ x ∧ x ≤ G))).foldl
          (fun acc x => acc ||| 2 ^ (x - 1)) 0).testBit (g - 1)
      · rw [htb] at hnz; simp at hnz
      · rfl
    rw [testBit_or_foldl] at htb
    simp only [Nat.zero_testBit, Bool.false_or, List.any_eq_true] at htb
    obtain ⟨x, hx, hd⟩ := htb
    rw [List.mem_filter] at hx
    obtain ⟨hxm, hxr⟩ := hx
    simp only [decide_eq_true_eq] at hxr hd
    have : x = g := by omega
    rwa [← this]
  · intro hg
    rw [testBit_or_foldl]
    simp only [Nat.zero_testBit, Bool.false_or, List.any_eq_true]
    have : (gs.filter (fun x => decide (1 ≤ x ∧ x ≤ G))).any
        (fun x => decide (x - 1 = g - 1)) = true := by
      rw [List.any_eq_true]
      exact ⟨g, List.mem_filter.mpr ⟨hg, by simp [h1, h2]⟩, by simp⟩
    rw [this]
    simp [hne]

/-- C6: nextOffer(g) probes exactly the bins B with B AND 2^(g-1) non-zero; a
returned offer comes from such a bin (and by the bin-id characterisation an
offer registered through registerOffer lands in an eligible bin exactly when
g is in its group list); and when every eligible bin is empty the call
returns NoOfferAvailable. -/
theorem nextOffer_routing (st : NegSt) (g now : Nat)
    (hG : st.maxGroupID ≤ 64) (h1 : 1 ≤ g) (h2 : g ≤ st.maxGroupID) :
    (∀ b, b ∈ eligibleBins st.maxGroupID g ↔
      1 ≤ b ∧ b ≤ 2 ^ st.maxGroupID - 1 ∧ b &&& 2 ^ (g - 1) ≠ 0) ∧
    (∀ oid sdp st1, nextOffer st g now = (.ok (oid, sdp), st1) →
      ∃ b o, b ∈ eligibleBins st.maxGroupID g ∧ o ∈ st.bins b ∧
        o.id = oid ∧ o.sdp = sdp) ∧
    (∀ gs, (∀ a ∈ gs, a < 2 ^ 64) →
      (binIDOfGroups st.maxGroupID gs &&& 2 ^ (g - 1) ≠ 0 ↔ g ∈ gs)) ∧
    ((∀ b ∈ eligibleBins st.maxGroupID g, st.bins b = []) →
      (nextOffer st g now).1 = .error .noOfferAvailable) := by
  refine ⟨?_, ?_, ?_, ?_⟩
  · intro b; exact mem_eligibleBins st.maxGroupID g b h1 (le_trans h2 hG)
  · intro oid sdp st1 h
    unfold nextOffer at h
    cases hp : probeBins st.answers now (eligibleBins st.maxGroupID g) st.bins with
    | mk r bins1 =>
      cases r with
      | some o =>
        rw [hp] at h
        obtain ⟨⟨b, hb, hm⟩, _⟩ :=
          probeBins_some st.answers now (eligibleBins st.maxGroupID g) st.bins o bins1 hp
        have ho : (o.id, o.sdp) = (oid, sdp) := by
          have := congrArg Prod.fst h
          simpa using this
        exact ⟨b, o, hb, hm, congrArg Prod.fst ho, congrArg Prod.snd ho⟩
      | none => rw [hp] at h; simp at h
  · intro gs hgs; exact binID_land_pow_ne_zero st.maxGroupID hG g h1 h2 gs hgs
  · intro hempty
    unfold nextOffer
    cases hp : probeBins st.answers now (eligibleBins st.maxGroupID g) st.bins with
    | mk r bins1 =>
      cases r with
      | some o =>
        have := probeBins_all_empty st.answers now (eligibleBins st.maxGroupID g) st.bins hempty
        rw [hp] at this
        simp at this
      | none => rfl

/-- Witness for C6 at a concrete state whose eligible bins are all empty:
nextOffer(2) reports NoOfferAvailable. -/
theorem nextOffer_routing_witness :
    (nextOffer wSt 2 0).1 = .error .noOfferAvailable :=
  (nextOffer_routing wSt 2 0 (by decide) (by decide) (by decide)).2.2.2 (fun b _ => rfl)

/-- Dropping one stale offer from the head of some bin does not change what
the probe returns: the scan would discard it and continue within that bin. -/
theorem probeBins_fst_drop_stale (ans : AnswerTable) (now bnum : Nat) (o : Offer)
    (hstale : ans.lookup o.id = none ∨ ∃ a, ans.lookup o.id = some a ∧ a.expiry < now) :
    ∀ (bl : List Nat) (bins bins2 : Nat → List Offer),
      (∀ x, x ≠ bnum → bins2 x = bins x) → bins bnum = o :: bins2 bnum →
      (probeBins ans now bl bins).1 = (probeBins ans now bl bins2).1 := by
  intro bl
  induction bl with
  | nil => intro bins bins2 hoff hb; rfl
  | cons b bs ih =>
    intro bins bins2 hoff hb
    by_cases hbb : b = bnum
    · subst hbb
      have hscan : scanBin ans now (bins b) = scanBin ans now (bins2 b) := by
        rw [hb]
        rcases hstale with hn | ⟨a, ha, he⟩
        · exact scanBin_cons_none ans now o (bins2 b) hn
        · exact scanBin_cons_stale ans now o (bins2 b) a ha he
      cases hs : scanBin ans now (bins2 b) with
      | mk r rest =>
        cases r with
        | some o2 =>
          rw [probeBins_cons_some ans now b bs bins o2 rest (hscan.trans hs),
            probeBins_cons_some ans now b bs bins2 o2 rest hs]
        | none =>
          rw [probeBins_cons_none ans now b bs bins rest (hscan.trans hs),
            probeBins_cons_none ans now b bs bins2 rest hs]
          have heq : (fun x => if x = b then ([] : List Offer) else bins x) =
              (fun x => if x = b then [] else bins2 x) := by
            funext x
            by_cases hxb : x = b
            · simp [hxb]
            · simp only [if_neg hxb]
              exact (hoff x hxb).symm
          rw [heq]
    · have hsb : bins b = bins2 b := (hoff b hbb).symm
      cases hs : scanBin ans now (bins2 b) with
      | mk r rest =>
        cases r with
        | some o2 =>
          rw [probeBins_cons_some ans now b bs bins o2 rest (hsb ▸ hs),
            probeBins_cons_some ans now b bs bins2 o2 rest hs]
        | none =>
          rw [probeBins_cons_none ans now b bs bins rest (hsb ▸ hs),
            probeBins_cons_none ans now b bs bins2 rest hs]
          apply ih
          · intro x hx
            by_cases hxb : x = b
            · simp [hxb]
            · simp only [if_neg hxb]
              exact hoff x hx
          · have hbn : bnum ≠ b := fun hh => hbb hh.symm
            simp only [if_neg hbn]
            exact hb

/-- C7: a dequeued offer whose answer row is absent from the table, or whose
expiry has passed at the instant of the check, is discarded and probing
continues within the same bin — removing such a stale head offer from any
bin changes nothing about what nextOffer returns — and nextOffer never
returns an offer that is stale at its check: a returned offer id has a row
present whose expiry has not passed. -/
theorem nextOffer_stale_skip (st : NegSt) (g now bnum : Nat) (o : Offer) (q : List Offer)
    (hb : st.bins bnum = o :: q)
    (hstale : st.answers.lookup o.id = none ∨
      ∃ a, st.answers.lookup o.id = some a ∧ a.expiry < now) :
    ((nextOffer st g now).1 =
      (nextOffer { st with bins := fun x => if x = bnum then q else st.bins x } g now).1) ∧
    (∀ oid sdp st1, nextOffer st g now = (.ok (oid, sdp), st1) →
      ∃ a, st.answers.lookup oid = some a ∧ ¬ (a.expiry < now)) := by
  constructor
  · have hoff : ∀ x, x ≠ bnum →
        (fun x => if x = bnum then q else st.bins x) x = st.bins x := by
      intro x hx; simp [hx]
    have hb2 : st.bins bnum = o :: (fun x => if x = bnum then q else st.bins x) bnum := by
      simp [hb]
    have hfst := probeBins_fst_drop_stale st.answers now bnum o hstale
      (eligibleBins st.maxGroupID g) st.bins
      (fun x => if x = bnum then q else st.bins x) hoff hb2
    unfold nextOffer
    dsimp only
    cases hp1 : probeBins st.answers now (eligibleBins st.maxGroupID g) st.bins with
    | mk r1 bins1 =>
      cases hp2 : probeBins st.answers now (eligibleBins st.maxGroupID g)
          (fun x => if x = bnum then q else st.bins x) with
      | mk r2 bins2 =>
        rw [hp1, hp2] at hfst
        simp only at hfst
        subst hfst
        cases r1 <;> rfl
  · intro oid sdp st1 h
    unfold nextOffer at h
    cases hp : probeBins st.answers now (eligibleBins st.maxGroupID g) st.bins with
    | mk r bins1 =>
      cases r with
      | some o2 =>
        rw [hp] at h
        obtain ⟨_, a, ha, he⟩ :=
          probeBins_some st.answers now (eligibleBins st.maxGroupID g) st.bins o2 bins1 hp
        have ho : o2.id = oid ∧ o2.sdp = sdp := by
          have := congrArg Prod.fst h
          simpa using this
        exact ⟨a, ho.1 ▸ ha, he⟩
      | none => rw [hp] at h; simp at h

/-- Witness for C7 at a concrete state: bin 1 holds one offer whose answer
row is absent; nextOffer(1) behaves exactly as on the state with that stale
offer already removed. -/
theorem nextOffer_stale_skip_witness :
    (nextOffer stStale 1 0).1 =
      (nextOffer { stStale with bins := fun x => if x = 1 then [] else stStale.bins x } 1 0).1 :=
  (nextOffer_stale_skip stStale 1 0 1 ⟨9, 1, some [7]⟩ [] rfl (Or.inl rfl)).1

/-- Reachability invariant of the registerOffer tail: starting at the send
with an empty trace, the only reachable configurations are the send site,
the store site after a handoff (which requires a consumer), and the return
site after handoff followed by the answer store. -/
theorem rrun_inv (polling : Nat) (c : RPC × List REv)
    (h : RRun polling (RPC.atSend, []) c) :
    c = (RPC.atSend, []) ∨
      (0 < polling ∧ (c = (RPC.atStore, [REv.handoff]) ∨
        c = (RPC.atRet, [REv.handoff, REv.storeAnswer]))) := by
  induction h with
  | refl => exact Or.inl rfl
  | tail hs hstep ih =>
    rcases ih with h1 | ⟨hp, h2 | h3⟩
    · rw [h1] at hstep
      cases hstep with
      | send t hpol => exact Or.inr ⟨hpol, Or.inl rfl⟩
    · rw [h2] at hstep
      cases hstep with
      | store t => exact Or.inr ⟨hp, Or.inr rfl⟩
    · rw [h3] at hstep
      cases hstep

/-- The complete run of the registerOffer tail with one consumer polling:
the rendezvous handoff first, then the answer-row store, then the return. -/
theorem rrun_complete_example :
    RRun 1 (RPC.atSend, []) (RPC.atRet, [REv.handoff, REv.storeAnswer]) :=
  Relation.ReflTransGen.tail
    (Relation.ReflTransGen.tail Relation.ReflTransGen.refl (RStep.send [] (by norm_num)))
    (RStep.store [REv.handoff])

/-- C1 counterexample: the complete execution of the registerOffer tail (one
consumer polling) carries the trace [handoff, storeAnswer]: the answer row is
stored strictly AFTER the enqueue handoff completes, not before it as the
claim asserts — so the dequeuing consumer can race ahead of the store and
find the row missing for a reason other than expiry. -/
theorem registerOffer_store_not_before_handoff :
    RRun 1 (RPC.atSend, []) (RPC.atRet, [REv.handoff, REv.storeAnswer]) ∧
    ¬ ([REv.handoff, REv.storeAnswer].indexOf REv.storeAnswer <
        [REv.handoff, REv.storeAnswer].indexOf REv.handoff) :=
  ⟨rrun_complete_example, by decide⟩

/-- C1 amended: every complete run of the registerOffer tail has trace
exactly [handoff, storeAnswer]: the answer row is created after the enqueue
handoff completes and before registerOffer returns.  A consumer that
dequeues the offer may therefore find the row not yet stored even without
expiry; nextOffer treats the missing row like an expired one and discards
the offer. -/
theorem registerOffer_creates_row_after_handoff (polling : Nat) (c : RPC × List REv)
    (h : RRun polling (RPC.atSend, []) c) (hret : c.1 = RPC.atRet) :
    c.2 = [REv.handoff, REv.storeAnswer] := by
  rcases rrun_inv polling c h with h1 | ⟨_, h2 | h3⟩
  · rw [h1] at hret; simp at hret
  · rw [h2] at hret; simp at hret
  · rw [h3]

/-- Witness for the amended C1 on the concrete complete run. -/
theorem registerOffer_creates_row_after_handoff_witness :
    (RPC.atRet, [REv.handoff, REv.storeAnswer]).2 = [REv.handoff, REv.storeAnswer] :=
  registerOffer_creates_row_after_handoff 1 (RPC.atRet, [REv.handoff, REv.storeAnswer])
    rrun_complete_example rfl

/-- C9: with zero consumers polling the matching bin the rendezvous send
never completes, so registerOffer never reaches its return; and every run
that does return carries the handoff event in its trace: a matching consumer
accepted the offer from the bin before registerOffer returned. -/
theorem registerOffer_backpressure :
    (∀ c, RRun 0 (RPC.atSend, []) c → c.1 ≠ RPC.atRet) ∧
    (∀ polling c, RRun polling (RPC.atSend, []) c → c.1 = RPC.atRet →
      REv.handoff ∈ c.2) := by
  constructor
  · intro c h
    rcases rrun_inv 0 c h with h1 | ⟨hp, _⟩
    · rw [h1]; simp
    · exact absurd hp (by norm_num)
  · intro polling c h hret
    rcases rrun_inv polling c h with h1 | ⟨_, h2 | h3⟩
    · rw [h1] at hret; simp at hret
    · rw [h2] at hret; simp at hret
    · rw [h3]; simp

/-- Witness for C9: the initial configuration itself has not returned, and
the concrete complete run (one consumer) contains the handoff. -/
theorem registerOffer_backpressure_witness :
    (RPC.atSend, ([] : List REv)).1 ≠ RPC.atRet ∧
    REv.handoff ∈ (RPC.atRet, [REv.handoff, REv.storeAnswer]).2 :=
  ⟨registerOffer_backpressure.1 (RPC.atSend, []) Relation.ReflTransGen.refl,
   registerOffer_backpressure.2 1 (RPC.atRet, [REv.handoff, REv.storeAnswer])
     rrun_complete_example rfl⟩

end RTCSocks
